import Mathlib

set_option maxHeartbeats 1000000

/- Verification development for the bulge-and-composite image pipeline in
src/main.py.  Pure string processing and integer pixel arithmetic are
embedded as computable functions; the floating-point warp is embedded over
the real numbers. -/

/-- Python ASCII whitespace, as recognized by str.strip and the no-argument
str.split (space, tab, newline, carriage return, vertical tab, form feed). -/
def isPySpace (c : Char) : Bool :=
  c = ' ' || c = '\t' || c = '\n' || c = '\r' || c = '\x0b' || c = '\x0c'

/-- Python str.strip with no argument: drop whitespace from both ends. -/
def pyStrip (l : List Char) : List Char :=
  ((l.dropWhile isPySpace).reverse.dropWhile isPySpace).reverse

/-- Python str.replace of every comma by a space, as in
content.replace in load_bounding_box (src/main.py line 93). -/
def replaceCommas (l : List Char) : List Char :=
  l.map fun c => if c = ',' then ' ' else c

/-- Helper for pySplit: the second argument accumulates the current token
in reverse order. -/
def pySplitAux : List Char → List Char → List (List Char)
  | [], acc => if acc.isEmpty then [] else [acc.reverse]
  | c :: cs, acc =>
    if isPySpace c then
      if acc.isEmpty then pySplitAux cs [] else acc.reverse :: pySplitAux cs []
    else
      pySplitAux cs (c :: acc)

/-- Python str.split with no separator: split on runs of whitespace,
discarding empty pieces. -/
def pySplit (l : List Char) : List (List Char) :=
  pySplitAux l []

/-- Decimal digit run as accepted by Python int() in base 10: nonempty,
all decimal digits, with single underscores allowed only between digits. -/
def validDigitRun : List Char → Bool
  | [] => false
  | [c] => c.isDigit
  | c :: '_' :: rest => c.isDigit && validDigitRun rest
  | c :: rest => c.isDigit && validDigitRun rest

/-- Numeric value of a digit run, underscores skipped. -/
def digitsVal (l : List Char) : ℕ :=
  (l.filter fun c => c != '_').foldl (fun a c => 10 * a + (c.toNat - 48)) 0

/-- Python int() applied to one whitespace-free token: an optional sign
followed by a digit run.  Non-ASCII digits are not exercised by this
repository and are not modelled. -/
def pyInt : List Char → Option ℤ
  | '+' :: rest => if validDigitRun rest then some (digitsVal rest : ℤ) else none
  | '-' :: rest => if validDigitRun rest then some (-(digitsVal rest : ℤ)) else none
  | l => if validDigitRun l then some (digitsVal l : ℤ) else none

/-- The list comprehension in load_bounding_box (src/main.py line 94):
every token must parse as an int; a single failure raises, the exception is
caught, and the whole parse yields nothing. -/
def parseAll : List (List Char) → Option (List ℤ)
  | [] => some []
  | t :: ts =>
    match pyInt t, parseAll ts with
    | some v, some vs => some (v :: vs)
    | _, _ => none

/-- Token sequence load_bounding_box derives from the file content:
strip, replace commas by spaces, split on whitespace (src/main.py 93-94). -/
def boxTokens (content : List Char) : List (List Char) :=
  pySplit (replaceCommas (pyStrip content))

/-- Python load_bounding_box (src/main.py 84-99) applied to the content of
an existing file: the four parsed integers when the token sequence is
exactly four ints, otherwise nothing (parse errors are caught and the
length test fails silently). -/
def load_bounding_box (content : List Char) : Option (ℤ × ℤ × ℤ × ℤ) :=
  match parseAll (boxTokens content) with
  | some [a, b, c, d] => some (a, b, c, d)
  | _ => none

/-- One 8-bit channel plane; px y x is the value at row y, column x
(row-major, numpy order). -/
structure Plane where
  width : ℕ
  height : ℕ
  px : ℕ → ℕ → ℕ

/-- A multi-channel 8-bit raster; px c y x is the value of channel c at
row y, column x. -/
structure Image where
  width : ℕ
  height : ℕ
  channels : ℕ
  px : ℕ → ℕ → ℕ → ℕ

/-- Channel c of an image as a plane (the per-channel loop of
apply_bulge_effect, src/main.py 78-80). -/
def channel (img : Image) (c : ℕ) : Plane :=
  ⟨img.width, img.height, img.px c⟩

/-- np.argwhere(mask_np >= 10) (src/main.py 134): the row-major list of
(y, x) coordinates of all pixels whose intensity meets the threshold 10. -/
def thresholdCoords (p : Plane) : List (ℕ × ℕ) :=
  (List.range p.height).flatMap fun y =>
    (List.range p.width).filterMap fun x =>
      if 10 ≤ p.px y x then some (y, x) else none

/-- Automatic bounding-box detection (src/main.py 130-142): nothing when no
pixel meets the threshold (the operation aborts), otherwise
(min_x, min_y, max_x, max_y) from coords.min(axis=0) and
coords.max(axis=0). -/
def detectBBox (p : Plane) : Option (ℕ × ℕ × ℕ × ℕ) :=
  match thresholdCoords p with
  | [] => none
  | c0 :: rest =>
    some (rest.foldl (fun a c => min a c.2) c0.2,
          rest.foldl (fun a c => min a c.1) c0.1,
          rest.foldl (fun a c => max a c.2) c0.2,
          rest.foldl (fun a c => max a c.1) c0.1)

/-- Bounding-box resolution in create_masked_overlay (src/main.py 123-143):
the explicit box file is tried first; when it is absent or fails to parse,
the box is detected automatically from the reference mask plane. -/
def resolveBBox (boxText : Option (List Char)) (refMask : Plane) :
    Option (ℤ × ℤ × ℤ × ℤ) :=
  match boxText.bind load_bounding_box with
  | some bb => some bb
  | none =>
    (detectBBox refMask).map fun r =>
      ((r.1 : ℤ), (r.2.1 : ℤ), (r.2.2.1 : ℤ), (r.2.2.2 : ℤ))

/-- Pillow MULDIV255 (libImaging ImagingUtils.h): approximate
(a * b) / 255 with rounding, used by Image.paste mask blending. -/
def muldiv255 (a b : ℕ) : ℕ :=
  ((a * b + 128) / 256 + (a * b + 128)) / 256

/-- Pillow BLEND macro (libImaging Paste.c): one channel of paste with a
mask, as invoked at src/main.py 173 and 176. -/
def blendChannel (mask dstv srcv : ℕ) : ℕ :=
  muldiv255 dstv (255 - mask) + muldiv255 srcv mask

/-- Image.paste(src, (0, 0), mask) restricted to one channel plane: the
per-pixel mask blend of the source layer over the destination. -/
def pasteWithMask (dst src mask : Plane) : Plane :=
  ⟨dst.width, dst.height,
   fun y x => blendChannel (mask.px y x) (dst.px y x) (src.px y x)⟩

/-- Bounding box as unpacked in apply_bulge_effect (src/main.py 24). -/
structure BBox where
  min_x : ℤ
  min_y : ℤ
  max_x : ℤ
  max_y : ℤ

/-- center_x (src/main.py 26). -/
noncomputable def centerX (bb : BBox) : ℝ := ((bb.min_x : ℝ) + (bb.max_x : ℝ)) / 2

/-- center_y (src/main.py 27). -/
noncomputable def centerY (bb : BBox) : ℝ := ((bb.min_y : ℝ) + (bb.max_y : ℝ)) / 2

/-- radius_x (src/main.py 28). -/
noncomputable def radiusX (bb : BBox) : ℝ := ((bb.max_x : ℝ) - (bb.min_x : ℝ)) / 2

/-- radius_y (src/main.py 29). -/
noncomputable def radiusY (bb : BBox) : ℝ := ((bb.max_y : ℝ) - (bb.min_y : ℝ)) / 2

/-- dx at column x (src/main.py 38). -/
noncomputable def normDx (bb : BBox) (x : ℕ) : ℝ :=
  ((x : ℝ) - centerX bb) / radiusX bb

/-- dy at row y (src/main.py 39). -/
noncomputable def normDy (bb : BBox) (y : ℕ) : ℝ :=
  ((y : ℝ) - centerY bb) / radiusY bb

/-- dist_sq at (x, y) (src/main.py 42). -/
noncomputable def distSq (bb : BBox) (x y : ℕ) : ℝ :=
  normDx bb x ^ 2 + normDy bb y ^ 2

/-- Transformation factor (src/main.py 60-62): 1 at distance 0, otherwise
arcsin d / (d * (pi / 2)). -/
noncomputable def sphericalFactor (d : ℝ) : ℝ :=
  if 0 < d then Real.arcsin d / (d * (Real.pi / 2)) else 1

/-- Raw source x coordinate (src/main.py 46, 64, 67): spherical pullback
inside the ellipse (dist_sq <= 1), identity outside. -/
noncomputable def srcXRaw (bb : BBox) (x y : ℕ) : ℝ :=
  if distSq bb x y ≤ 1 then
    centerX bb + normDx bb x * sphericalFactor (Real.sqrt (distSq bb x y)) * radiusX bb
  else (x : ℝ)

/-- Raw source y coordinate (src/main.py 47, 65, 68). -/
noncomputable def srcYRaw (bb : BBox) (x y : ℕ) : ℝ :=
  if distSq bb x y ≤ 1 then
    centerY bb + normDy bb y * sphericalFactor (Real.sqrt (distSq bb x y)) * radiusY bb
  else (y : ℝ)

/-- np.clip(v, 0, hi) (src/main.py 71-72). -/
noncomputable def clampCoord (hi v : ℝ) : ℝ := min (max v 0) hi

/-- Clamped source x coordinate map_x (src/main.py 71). -/
noncomputable def srcX (w : ℕ) (bb : BBox) (x y : ℕ) : ℝ :=
  clampCoord ((w : ℝ) - 1) (srcXRaw bb x y)

/-- Clamped source y coordinate map_y (src/main.py 72). -/
noncomputable def srcY (h : ℕ) (bb : BBox) (x y : ℕ) : ℝ :=
  clampCoord ((h : ℝ) - 1) (srcYRaw bb x y)

/-- scipy boundary mode reflect: fold an integer tap index into [0, n) by
reflection about the array edges, with period 2 * n
(pattern d c b a | a b c d | d c b a). -/
def reflectIdx (n : ℕ) (i : ℤ) : ℕ :=
  if i % (2 * (n : ℤ)) < (n : ℤ) then (i % (2 * (n : ℤ))).toNat
  else (2 * (n : ℤ) - 1 - i % (2 * (n : ℤ))).toNat

/-- scipy map_coordinates with order 1 and mode reflect at one point
(src/main.py 80): bilinear interpolation of the four neighbouring taps,
indices reflected at the edges.  The value is kept real, before the store
into the uint8 output array. -/
noncomputable def bilinear (p : Plane) (sx sy : ℝ) : ℝ :=
  (1 - (sy - (⌊sy⌋ : ℝ))) *
      ((1 - (sx - (⌊sx⌋ : ℝ))) *
          (p.px (reflectIdx p.height ⌊sy⌋) (reflectIdx p.width ⌊sx⌋) : ℝ)
        + (sx - (⌊sx⌋ : ℝ)) *
          (p.px (reflectIdx p.height ⌊sy⌋) (reflectIdx p.width (⌊sx⌋ + 1)) : ℝ))
    + (sy - (⌊sy⌋ : ℝ)) *
      ((1 - (sx - (⌊sx⌋ : ℝ))) *
          (p.px (reflectIdx p.height (⌊sy⌋ + 1)) (reflectIdx p.width ⌊sx⌋) : ℝ)
        + (sx - (⌊sx⌋ : ℝ)) *
          (p.px (reflectIdx p.height (⌊sy⌋ + 1)) (reflectIdx p.width (⌊sx⌋ + 1)) : ℝ))

/-- One output value of the bulge warp when scipy is available
(src/main.py 23-82): channel c of the warped image at row y, column x. -/
noncomputable def bulgePixel (img : Image) (bb : BBox) (c y x : ℕ) : ℝ :=
  bilinear (channel img c) (srcX img.width bb x y) (srcY img.height bb x y)

/-- apply_bulge_effect (src/main.py 15-82): when scipy is unavailable the
input image is returned unchanged (lines 19-21), otherwise the bulge warp
is applied. -/
noncomputable def apply_bulge_effect (scipyAvail : Bool) (img : Image) (bb : BBox)
    (c y x : ℕ) : ℝ :=
  if scipyAvail then bulgePixel img bb c y x else (img.px c y x : ℝ)

/-- Spec-side strength blend, following section 4.2 step 4 of the design
document word for word: f = 1 + (f_full - 1) * s.  Used only to compare
the strength-parameterized warp of the spec with the code's warp. -/
noncomputable def specFactor (s d : ℝ) : ℝ := 1 + (sphericalFactor d - 1) * s

/-- Spec-side raw source x coordinate (design document section 4.2,
steps 2-5), for comparison with the code's srcXRaw. -/
noncomputable def specSrcXRaw (s : ℝ) (bb : BBox) (x y : ℕ) : ℝ :=
  if distSq bb x y ≤ 1 then
    centerX bb + normDx bb x * specFactor s (Real.sqrt (distSq bb x y)) * radiusX bb
  else (x : ℝ)

/-- Spec-side raw source y coordinate. -/
noncomputable def specSrcYRaw (s : ℝ) (bb : BBox) (x y : ℕ) : ℝ :=
  if distSq bb x y ≤ 1 then
    centerY bb + normDy bb y * specFactor s (Real.sqrt (distSq bb x y)) * radiusY bb
  else (y : ℝ)

/-- Spec-side warp with explicit strength (design document section 4.2),
sharing clamping and resampling with the code path. -/
noncomputable def specWarp (s : ℝ) (img : Image) (bb : BBox) (c y x : ℕ) : ℝ :=
  bilinear (channel img c)
    (clampCoord ((img.width : ℝ) - 1) (specSrcXRaw s bb x y))
    (clampCoord ((img.height : ℝ) - 1) (specSrcYRaw s bb x y))

/-- Concrete 5 by 5 single-channel test image: 255 at row 2 column 3,
0 elsewhere. -/
def cimg : Image := ⟨5, 5, 1, fun _ y x => if y = 2 ∧ x = 3 then 255 else 0⟩

/-- Concrete box (0, 0, 4, 4), centred at pixel (2, 2) with radii 2. -/
def cbb : BBox := ⟨0, 0, 4, 4⟩

/-- Concrete 3 by 3 mask plane with two pixels at or over the threshold. -/
def wplane : Plane :=
  ⟨3, 3, fun y x => if y = 1 ∧ x = 2 then 200 else if y = 2 ∧ x = 1 then 50 else 0⟩

/-- A bounding-box file consisting of a comment line then a box line. -/
def commentBoxContent : List Char := "# comment\n5,5,20,20".toList

/-- A bounding-box file consisting of the box line alone. -/
def plainBoxContent : List Char := "5,5,20,20".toList

/-- Four integer tokens spread over two lines. -/
def twoLineContent : List Char := "1 2\n3,4".toList

/-- Unparsable bounding-box text. -/
def badBoxContent : List Char := "not a box".toList

/-- Concrete 1 by 1 destination plane for compositing. -/
def dplane : Plane := ⟨1, 1, fun _ _ => 7⟩

/-- Concrete 1 by 1 source plane for compositing. -/
def splane : Plane := ⟨1, 1, fun _ _ => 200⟩

/-- Concrete 1 by 1 fully opaque mask. -/
def mplane : Plane := ⟨1, 1, fun _ _ => 255⟩

/- Helper lemmas. -/

theorem muldiv255_zero (a : ℕ) : muldiv255 a 0 = 0 := by
  simp [muldiv255]

theorem muldiv255_full (a : ℕ) (h : a ≤ 255) : muldiv255 a 255 = a := by
  unfold muldiv255
  omega

theorem reflectIdx_of_lt (n : ℕ) (i : ℤ) (h0 : 0 ≤ i) (h : i < (n : ℤ)) :
    reflectIdx n i = i.toNat := by
  unfold reflectIdx
  have hm : i % (2 * (n : ℤ)) = i := Int.emod_eq_of_lt h0 (by omega)
  rw [hm, if_pos h]

theorem reflectIdx_natCast (n x : ℕ) (h : x < n) : reflectIdx n (x : ℤ) = x := by
  rw [reflectIdx_of_lt n (x : ℤ) (by positivity) (by exact_mod_cast h)]
  exact Int.toNat_natCast x

theorem clampCoord_of_mem (hi v : ℝ) (h0 : 0 ≤ v) (h1 : v ≤ hi) :
    clampCoord hi v = v := by
  unfold clampCoord
  rw [max_eq_left h0, min_eq_left h1]

theorem clampCoord_bounds (hi v : ℝ) (h : 0 ≤ hi) :
    0 ≤ clampCoord hi v ∧ clampCoord hi v ≤ hi := by
  unfold clampCoord
  constructor
  · exact le_min (le_max_right v 0) h
  · exact min_le_right _ _

theorem natCast_le_sub_one (x w : ℕ) (h : x < w) : (x : ℝ) ≤ (w : ℝ) - 1 := by
  have h1 : x + 1 ≤ w := h
  have h2 : ((x : ℝ) + 1) ≤ (w : ℝ) := by exact_mod_cast h1
  linarith

theorem bilinear_natCast (p : Plane) (x y : ℕ) (hx : x < p.width) (hy : y < p.height) :
    bilinear p (x : ℝ) (y : ℝ) = (p.px y x : ℝ) := by
  have hfx : ⌊(x : ℝ)⌋ = (x : ℤ) := Int.floor_natCast x
  have hfy : ⌊(y : ℝ)⌋ = (y : ℤ) := Int.floor_natCast y
  have hrx : reflectIdx p.width (x : ℤ) = x := reflectIdx_natCast _ _ hx
  have hry : reflectIdx p.height (y : ℤ) = y := reflectIdx_natCast _ _ hy
  simp only [bilinear, hfx, hfy, hrx, hry]
  push_cast
  ring_nf


theorem bilinear_clamped_nat (p : Plane) (x y : ℕ)
    (hx : x < p.width) (hy : y < p.height) :
    bilinear p (clampCoord ((p.width : ℝ) - 1) (x : ℝ))
      (clampCoord ((p.height : ℝ) - 1) (y : ℝ)) = (p.px y x : ℝ) := by
  rw [clampCoord_of_mem _ _ (by positivity) (natCast_le_sub_one x p.width hx),
      clampCoord_of_mem _ _ (by positivity) (natCast_le_sub_one y p.height hy)]
  exact bilinear_natCast p x y hx hy

theorem srcXRaw_outside (bb : BBox) (x y : ℕ) (h : 1 < distSq bb x y) :
    srcXRaw bb x y = (x : ℝ) := by
  unfold srcXRaw
  rw [if_neg (not_le.mpr h)]

theorem srcYRaw_outside (bb : BBox) (x y : ℕ) (h : 1 < distSq bb x y) :
    srcYRaw bb x y = (y : ℝ) := by
  unfold srcYRaw
  rw [if_neg (not_le.mpr h)]

theorem specSrcXRaw_outside (s : ℝ) (bb : BBox) (x y : ℕ) (h : 1 < distSq bb x y) :
    specSrcXRaw s bb x y = (x : ℝ) := by
  unfold specSrcXRaw
  rw [if_neg (not_le.mpr h)]

theorem specSrcYRaw_outside (s : ℝ) (bb : BBox) (x y : ℕ) (h : 1 < distSq bb x y) :
    specSrcYRaw s bb x y = (y : ℝ) := by
  unfold specSrcYRaw
  rw [if_neg (not_le.mpr h)]

theorem centerX_center (bb : BBox) (cxN : ℕ) (h : bb.min_x + bb.max_x = 2 * (cxN : ℤ)) :
    centerX bb = (cxN : ℝ) := by
  unfold centerX
  have h2 : ((bb.min_x : ℝ) + (bb.max_x : ℝ)) = 2 * (cxN : ℝ) := by exact_mod_cast h
  rw [h2]
  ring

theorem centerY_center (bb : BBox) (cyN : ℕ) (h : bb.min_y + bb.max_y = 2 * (cyN : ℤ)) :
    centerY bb = (cyN : ℝ) := by
  unfold centerY
  have h2 : ((bb.min_y : ℝ) + (bb.max_y : ℝ)) = 2 * (cyN : ℝ) := by exact_mod_cast h
  rw [h2]
  ring

theorem normDx_center (bb : BBox) (cxN : ℕ) (h : bb.min_x + bb.max_x = 2 * (cxN : ℤ)) :
    normDx bb cxN = 0 := by
  unfold normDx
  rw [centerX_center bb cxN h, sub_self, zero_div]

theorem normDy_center (bb : BBox) (cyN : ℕ) (h : bb.min_y + bb.max_y = 2 * (cyN : ℤ)) :
    normDy bb cyN = 0 := by
  unfold normDy
  rw [centerY_center bb cyN h, sub_self, zero_div]

theorem srcXRaw_center (bb : BBox) (cxN cyN : ℕ)
    (hx : bb.min_x + bb.max_x = 2 * (cxN : ℤ)) (hy : bb.min_y + bb.max_y = 2 * (cyN : ℤ)) :
    srcXRaw bb cxN cyN = (cxN : ℝ) := by
  have hdx := normDx_center bb cxN hx
  have hdy := normDy_center bb cyN hy
  have hds : distSq bb cxN cyN = 0 := by rw [distSq, hdx, hdy]; ring
  unfold srcXRaw
  rw [hds, if_pos (by norm_num : (0 : ℝ) ≤ 1), hdx, centerX_center bb cxN hx]
  ring

theorem srcYRaw_center (bb : BBox) (cxN cyN : ℕ)
    (hx : bb.min_x + bb.max_x = 2 * (cxN : ℤ)) (hy : bb.min_y + bb.max_y = 2 * (cyN : ℤ)) :
    srcYRaw bb cxN cyN = (cyN : ℝ) := by
  have hdx := normDx_center bb cxN hx
  have hdy := normDy_center bb cyN hy
  have hds : distSq bb cxN cyN = 0 := by rw [distSq, hdx, hdy]; ring
  unfold srcYRaw
  rw [hds, if_pos (by norm_num : (0 : ℝ) ≤ 1), hdy, centerY_center bb cyN hy]
  ring

theorem specSrcXRaw_center (s : ℝ) (bb : BBox) (cxN cyN : ℕ)
    (hx : bb.min_x + bb.max_x = 2 * (cxN : ℤ)) (hy : bb.min_y + bb.max_y = 2 * (cyN : ℤ)) :
    specSrcXRaw s bb cxN cyN = (cxN : ℝ) := by
  have hdx := normDx_center bb cxN hx
  have hdy := normDy_center bb cyN hy
  have hds : distSq bb cxN cyN = 0 := by rw [distSq, hdx, hdy]; ring
  unfold specSrcXRaw
  rw [hds, if_pos (by norm_num : (0 : ℝ) ≤ 1), hdx, centerX_center bb cxN hx]
  ring

theorem specSrcYRaw_center (s : ℝ) (bb : BBox) (cxN cyN : ℕ)
    (hx : bb.min_x + bb.max_x = 2 * (cxN : ℤ)) (hy : bb.min_y + bb.max_y = 2 * (cyN : ℤ)) :
    specSrcYRaw s bb cxN cyN = (cyN : ℝ) := by
  have hdx := normDx_center bb cxN hx
  have hdy := normDy_center bb cyN hy
  have hds : distSq bb cxN cyN = 0 := by rw [distSq, hdx, hdy]; ring
  unfold specSrcYRaw
  rw [hds, if_pos (by norm_num : (0 : ℝ) ≤ 1), hdy, centerY_center bb cyN hy]
  ring

theorem specFactor_one (d : ℝ) : specFactor 1 d = sphericalFactor d := by
  unfold specFactor
  ring

theorem specFactor_zero (d : ℝ) : specFactor 0 d = 1 := by
  unfold specFactor
  ring

theorem specSrcXRaw_one (bb : BBox) (x y : ℕ) :
    specSrcXRaw 1 bb x y = srcXRaw bb x y := by
  unfold specSrcXRaw srcXRaw
  rw [specFactor_one]

theorem specSrcYRaw_one (bb : BBox) (x y : ℕ) :
    specSrcYRaw 1 bb x y = srcYRaw bb x y := by
  unfold specSrcYRaw srcYRaw
  rw [specFactor_one]

theorem radiusX_pos (bb : BBox) (h : bb.min_x < bb.max_x) : 0 < radiusX bb := by
  unfold radiusX
  have h2 : (bb.min_x : ℝ) < (bb.max_x : ℝ) := by exact_mod_cast h
  linarith

theorem radiusY_pos (bb : BBox) (h : bb.min_y < bb.max_y) : 0 < radiusY bb := by
  unfold radiusY
  have h2 : (bb.min_y : ℝ) < (bb.max_y : ℝ) := by exact_mod_cast h
  linarith

theorem specSrcXRaw_zero (bb : BBox) (x y : ℕ) (hr : radiusX bb ≠ 0) :
    specSrcXRaw 0 bb x y = (x : ℝ) := by
  unfold specSrcXRaw
  split_ifs with h
  · rw [specFactor_zero, mul_one, normDx, div_mul_cancel₀ _ hr]
    ring
  · rfl

theorem specSrcYRaw_zero (bb : BBox) (x y : ℕ) (hr : radiusY bb ≠ 0) :
    specSrcYRaw 0 bb x y = (y : ℝ) := by
  unfold specSrcYRaw
  split_ifs with h
  · rw [specFactor_zero, mul_one, normDy, div_mul_cancel₀ _ hr]
    ring
  · rfl


theorem foldl_min_le_init (f : ℕ × ℕ → ℕ) :
    ∀ (l : List (ℕ × ℕ)) (a : ℕ), l.foldl (fun a c => min a (f c)) a ≤ a := by
  intro l
  induction l with
  | nil => intro a; exact le_refl a
  | cons c l ih =>
    intro a
    calc (c :: l).foldl (fun a c => min a (f c)) a
        = l.foldl (fun a c => min a (f c)) (min a (f c)) := rfl
      _ ≤ min a (f c) := ih _
      _ ≤ a := min_le_left _ _

theorem foldl_min_le_mem (f : ℕ × ℕ → ℕ) :
    ∀ (l : List (ℕ × ℕ)) (a : ℕ) (x : ℕ × ℕ), x ∈ l →
      l.foldl (fun a c => min a (f c)) a ≤ f x := by
  intro l
  induction l with
  | nil => intro a x hx; cases hx
  | cons c l ih =>
    intro a x hx
    rcases List.mem_cons.mp hx with h | h
    · subst h
      calc (x :: l).foldl (fun a c => min a (f c)) a
          = l.foldl (fun a c => min a (f c)) (min a (f x)) := rfl
        _ ≤ min a (f x) := foldl_min_le_init f l _
        _ ≤ f x := min_le_right _ _
    · exact ih _ x h

theorem foldl_min_attained (f : ℕ × ℕ → ℕ) :
    ∀ (l : List (ℕ × ℕ)) (a : ℕ),
      l.foldl (fun a c => min a (f c)) a = a ∨
      ∃ c ∈ l, l.foldl (fun a c => min a (f c)) a = f c := by
  intro l
  induction l with
  | nil => intro a; exact Or.inl rfl
  | cons c l ih =>
    intro a
    have hstep : (c :: l).foldl (fun a c => min a (f c)) a
        = l.foldl (fun a c => min a (f c)) (min a (f c)) := rfl
    rcases ih (min a (f c)) with h | ⟨c', hc', h⟩
    · rcases min_choice a (f c) with hm | hm
      · exact Or.inl (by rw [hstep, h, hm])
      · exact Or.inr ⟨c, List.mem_cons_self c l, by rw [hstep, h, hm]⟩
    · exact Or.inr ⟨c', List.mem_cons_of_mem c hc', by rw [hstep, h]⟩

theorem foldl_max_init_le (f : ℕ × ℕ → ℕ) :
    ∀ (l : List (ℕ × ℕ)) (a : ℕ), a ≤ l.foldl (fun a c => max a (f c)) a := by
  intro l
  induction l with
  | nil => intro a; exact le_refl a
  | cons c l ih =>
    intro a
    calc a ≤ max a (f c) := le_max_left _ _
      _ ≤ l.foldl (fun a c => max a (f c)) (max a (f c)) := ih _
      _ = (c :: l).foldl (fun a c => max a (f c)) a := rfl

theorem foldl_max_mem_le (f : ℕ × ℕ → ℕ) :
    ∀ (l : List (ℕ × ℕ)) (a : ℕ) (x : ℕ × ℕ), x ∈ l →
      f x ≤ l.foldl (fun a c => max a (f c)) a := by
  intro l
  induction l with
  | nil => intro a x hx; cases hx
  | cons c l ih =>
    intro a x hx
    rcases List.mem_cons.mp hx with h | h
    · subst h
      calc f x ≤ max a (f x) := le_max_right _ _
        _ ≤ l.foldl (fun a c => max a (f c)) (max a (f x)) := foldl_max_init_le f l _
        _ = (x :: l).foldl (fun a c => max a (f c)) a := rfl
    · exact ih _ x h

theorem foldl_max_attained (f : ℕ × ℕ → ℕ) :
    ∀ (l : List (ℕ × ℕ)) (a : ℕ),
      l.foldl (fun a c => max a (f c)) a = a ∨
      ∃ c ∈ l, l.foldl (fun a c => max a (f c)) a = f c := by
  intro l
  induction l with
  | nil => intro a; exact Or.inl rfl
  | cons c l ih =>
    intro a
    have hstep : (c :: l).foldl (fun a c => max a (f c)) a
        = l.foldl (fun a c => max a (f c)) (max a (f c)) := rfl
    rcases ih (max a (f c)) with h | ⟨c', hc', h⟩
    · rcases max_choice a (f c) with hm | hm
      · exact Or.inl (by rw [hstep, h, hm])
      · exact Or.inr ⟨c, List.mem_cons_self c l, by rw [hstep, h, hm]⟩
    · exact Or.inr ⟨c', List.mem_cons_of_mem c hc', by rw [hstep, h]⟩

theorem mem_thresholdCoords (p : Plane) (y x : ℕ) :
    (y, x) ∈ thresholdCoords p ↔ y < p.height ∧ x < p.width ∧ 10 ≤ p.px y x := by
  simp only [thresholdCoords, List.mem_flatMap, List.mem_filterMap, List.mem_range,
    Option.ite_none_right_eq_some, Option.some.injEq, Prod.mk.injEq]
  constructor
  · rintro ⟨y', hy', x', hx', hle, hyx⟩
    rcases hyx with ⟨hy1, hx1⟩
    subst hy1
    subst hx1
    exact ⟨hy', hx', hle⟩
  · rintro ⟨hy, hx, hle⟩
    exact ⟨y, hy, x, hx, hle, rfl, rfl⟩

theorem parseAll_forall2 :
    ∀ (ts : List (List Char)) (vs : List ℤ), parseAll ts = some vs →
      List.Forall₂ (fun t v => pyInt t = some v) ts vs := by
  intro ts
  induction ts with
  | nil =>
    intro vs h
    simp only [parseAll, Option.some.injEq] at h
    subst h
    exact List.Forall₂.nil
  | cons t ts ih =>
    intro vs h
    unfold parseAll at h
    cases hp : pyInt t with
    | none => rw [hp] at h; simp at h
    | some v =>
      rw [hp] at h
      cases hr : parseAll ts with
      | none => rw [hr] at h; simp at h
      | some vs' =>
        rw [hr] at h
        simp only [Option.some.injEq] at h
        subst h
        exact List.Forall₂.cons hp (ih vs' hr)


/- Claim theorems. -/

/-- C7: when the numerical backend (scipy) is unavailable,
apply_bulge_effect returns its input raster unchanged at every pixel,
for every image and box, rather than failing. -/
theorem missing_backend_identity (img : Image) (bb : BBox) (c y x : ℕ) :
    apply_bulge_effect false img bb c y x = (img.px c y x : ℝ) := by
  simp [apply_bulge_effect]

/-- C9: for the paste blend out = src * alpha + out * (1 - alpha), at every
pixel where the mask is 255 the composited output equals that layer's
source pixel exactly, and where the mask is 0 it equals the prior
accumulated output exactly. -/
theorem composite_mask_extremes (dst src mask : Plane) (y x : ℕ)
    (hs : src.px y x ≤ 255) (hd : dst.px y x ≤ 255) :
    (mask.px y x = 255 → (pasteWithMask dst src mask).px y x = src.px y x) ∧
    (mask.px y x = 0 → (pasteWithMask dst src mask).px y x = dst.px y x) := by
  constructor
  · intro hm
    show blendChannel (mask.px y x) (dst.px y x) (src.px y x) = src.px y x
    rw [hm]
    unfold blendChannel
    norm_num [muldiv255_zero, muldiv255_full _ hs]
  · intro hm
    show blendChannel (mask.px y x) (dst.px y x) (src.px y x) = dst.px y x
    rw [hm]
    unfold blendChannel
    norm_num [muldiv255_zero, muldiv255_full _ hd]

/-- C9 witness: a concrete fully-opaque composite returns the source. -/
theorem composite_mask_extremes_witness :
    splane.px 0 0 ≤ 255 ∧ dplane.px 0 0 ≤ 255 ∧ mplane.px 0 0 = 255 ∧
    (pasteWithMask dplane splane mplane).px 0 0 = splane.px 0 0 :=
  ⟨by decide, by decide, by decide,
   (composite_mask_extremes dplane splane mplane 0 0 (by decide) (by decide)).1 (by decide)⟩

/-- C2 counterexample: for a file whose content is a comment line followed
by the line 5,5,20,20 the parser does not return the box (5, 5, 20, 20);
it returns nothing, because the whole-file token sequence includes the
comment words and is not four integers. -/
theorem comment_box_file_rejected :
    load_bounding_box commentBoxContent = none ∧
    load_bounding_box commentBoxContent ≠ some (5, 5, 20, 20) := by
  exact ⟨by decide, by decide⟩

/-- C2 (amended): load_bounding_box parses the entire file as one token
sequence with commas treated as whitespace and succeeds only when that
sequence is exactly four integers; it has no blank-line or comment-line
skipping, so the comment file yields no explicit box while a file holding
just the box line parses to (5, 5, 20, 20). -/
theorem box_parse_whole_file_tokens :
    load_bounding_box plainBoxContent = some (5, 5, 20, 20) ∧
    load_bounding_box commentBoxContent = none := by
  exact ⟨by decide, by decide⟩


theorem forall2_four {α β : Type} {R : α → β → Prop} {ts : List α} {a b c d : β}
    (h : List.Forall₂ R ts [a, b, c, d]) :
    ∃ t1 t2 t3 t4, ts = [t1, t2, t3, t4] ∧ R t1 a ∧ R t2 b ∧ R t3 c ∧ R t4 d := by
  cases h with
  | cons h1 h2 =>
    cases h2 with
    | cons h2a h3 =>
      cases h3 with
      | cons h3a h4 =>
        cases h4 with
        | cons h4a h5 =>
          cases h5
          exact ⟨_, _, _, _, rfl, h1, h2a, h3a, h4a⟩

/-- C10: the bounding-box parser is total over file contents (all failures
are absorbed into the absent value), and it returns a box only when the
whole-file token sequence, commas treated as whitespace and regardless of
line structure, consists of exactly four integer tokens. -/
theorem box_parser_total_four_tokens (content : List Char) (a b c d : ℤ)
    (h : load_bounding_box content = some (a, b, c, d)) :
    ∃ t1 t2 t3 t4, boxTokens content = [t1, t2, t3, t4] ∧
      pyInt t1 = some a ∧ pyInt t2 = some b ∧ pyInt t3 = some c ∧
      pyInt t4 = some d := by
  unfold load_bounding_box at h
  split at h
  · next a' b' c' d' heq =>
    simp only [Option.some.injEq, Prod.mk.injEq] at h
    obtain ⟨ha, hb, hc, hd⟩ := h
    subst ha
    subst hb
    subst hc
    subst hd
    exact @forall2_four _ _ (fun t v => pyInt t = some v) _ _ _ _ _
      (parseAll_forall2 _ _ heq)
  · exact absurd h (by simp)

/-- C10 witness: four integer tokens spread over two lines, mixing space,
newline and comma separators, parse to a box. -/
theorem box_parser_total_four_tokens_witness :
    load_bounding_box twoLineContent = some (1, 2, 3, 4) ∧
    (∃ t1 t2 t3 t4, boxTokens twoLineContent = [t1, t2, t3, t4] ∧
      pyInt t1 = some 1 ∧ pyInt t2 = some 2 ∧ pyInt t3 = some 3 ∧
      pyInt t4 = some 4) :=
  ⟨by decide, box_parser_total_four_tokens twoLineContent 1 2 3 4 (by decide)⟩

/-- C6: malformed bounding-box text is treated as no explicit box: the
parser yields the absent value instead of raising, and the pipeline falls
back to automatic detection from the reference raster. -/
theorem malformed_box_falls_back (s : List Char) (p : Plane)
    (h : load_bounding_box s = none) :
    resolveBBox (some s) p =
      (detectBBox p).map
        (fun r => ((r.1 : ℤ), (r.2.1 : ℤ), (r.2.2.1 : ℤ), (r.2.2.2 : ℤ))) := by
  unfold resolveBBox
  rw [Option.some_bind, h]

/-- C6 witness: a concrete garbage box file falls back to detection. -/
theorem malformed_box_falls_back_witness :
    load_bounding_box badBoxContent = none ∧
    resolveBBox (some badBoxContent) wplane =
      (detectBBox wplane).map
        (fun r => ((r.1 : ℤ), (r.2.1 : ℤ), (r.2.2.1 : ℤ), (r.2.2.2 : ℤ))) :=
  ⟨by decide, malformed_box_falls_back badBoxContent wplane (by decide)⟩

/-- C3: at every destination pixel outside the bounding ellipse
(dx^2 + dy^2 > 1) the warped output equals the input at that same pixel,
both for the code warp (which has no strength input) and for the
strength-parameterized spec warp at every strength. -/
theorem outside_ellipse_unchanged (img : Image) (bb : BBox) (s : ℝ) (c y x : ℕ)
    (hx : x < img.width) (hy : y < img.height) (hout : 1 < distSq bb x y) :
    apply_bulge_effect true img bb c y x = (img.px c y x : ℝ) ∧
    specWarp s img bb c y x = (img.px c y x : ℝ) := by
  have hb : apply_bulge_effect true img bb c y x = bulgePixel img bb c y x := by
    simp [apply_bulge_effect]
  constructor
  · rw [hb]
    unfold bulgePixel srcX srcY
    rw [srcXRaw_outside bb x y hout, srcYRaw_outside bb x y hout]
    exact bilinear_clamped_nat (channel img c) x y hx hy
  · unfold specWarp
    rw [specSrcXRaw_outside s bb x y hout, specSrcYRaw_outside s bb x y hout]
    exact bilinear_clamped_nat (channel img c) x y hx hy

/-- C3 witness: the corner pixel (0, 0) lies outside the ellipse of the
concrete box and is unchanged by the code warp. -/
theorem outside_ellipse_unchanged_witness :
    (0 : ℕ) < cimg.width ∧ (0 : ℕ) < cimg.height ∧ (1 : ℝ) < distSq cbb 0 0 ∧
    apply_bulge_effect true cimg cbb 0 0 0 = (cimg.px 0 0 0 : ℝ) := by
  have hdist : (1 : ℝ) < distSq cbb 0 0 := by
    norm_num [distSq, normDx, normDy, centerX, centerY, radiusX, radiusY, cbb]
  exact ⟨by decide, by decide, hdist,
    (outside_ellipse_unchanged cimg cbb 0 0 0 0 (by decide) (by decide) hdist).1⟩

/-- C4: the warp maps the centre pixel of the bounding box to itself, for
the code warp and for the spec warp at every strength, whenever the box
has positive extent and its centre is a lattice pixel inside the raster. -/
theorem center_pixel_fixed (img : Image) (bb : BBox) (s : ℝ) (c cxN cyN : ℕ)
    (hcx : bb.min_x + bb.max_x = 2 * (cxN : ℤ))
    (hcy : bb.min_y + bb.max_y = 2 * (cyN : ℤ))
    (hxw : cxN < img.width) (hyh : cyN < img.height)
    (_hbx : bb.min_x < bb.max_x) (_hby : bb.min_y < bb.max_y) :
    apply_bulge_effect true img bb c cyN cxN = (img.px c cyN cxN : ℝ) ∧
    specWarp s img bb c cyN cxN = (img.px c cyN cxN : ℝ) := by
  have hb : apply_bulge_effect true img bb c cyN cxN = bulgePixel img bb c cyN cxN := by
    simp [apply_bulge_effect]
  constructor
  · rw [hb]
    unfold bulgePixel srcX srcY
    rw [srcXRaw_center bb cxN cyN hcx hcy, srcYRaw_center bb cxN cyN hcx hcy]
    exact bilinear_clamped_nat (channel img c) cxN cyN hxw hyh
  · unfold specWarp
    rw [specSrcXRaw_center s bb cxN cyN hcx hcy, specSrcYRaw_center s bb cxN cyN hcx hcy]
    exact bilinear_clamped_nat (channel img c) cxN cyN hxw hyh

/-- C4 witness: the centre pixel (2, 2) of the concrete box is fixed by
the code warp on the concrete image. -/
theorem center_pixel_fixed_witness :
    cbb.min_x + cbb.max_x = 2 * ((2 : ℕ) : ℤ) ∧
    cbb.min_y + cbb.max_y = 2 * ((2 : ℕ) : ℤ) ∧
    (2 : ℕ) < cimg.width ∧ (2 : ℕ) < cimg.height ∧
    cbb.min_x < cbb.max_x ∧ cbb.min_y < cbb.max_y ∧
    apply_bulge_effect true cimg cbb 0 2 2 = (cimg.px 0 2 2 : ℝ) :=
  ⟨by decide, by decide, by decide, by decide, by decide, by decide,
   (center_pixel_fixed cimg cbb 0 0 2 2 (by decide) (by decide) (by decide)
     (by decide) (by decide) (by decide)).1⟩


/-- C8: for every destination pixel the computed source coordinate is
clamped into [0, width - 1] x [0, height - 1] before resampling, and
resampling tap indices that fall outside the raster are folded back by
edge reflection (mirroring at the boundary), not clamped to a border. -/
theorem src_coords_clamped_reflect_sampling (img : Image) (bb : BBox) (x y : ℕ)
    (hw : 1 ≤ img.width) (hh : 1 ≤ img.height) :
    (0 ≤ srcX img.width bb x y ∧ srcX img.width bb x y ≤ (img.width : ℝ) - 1 ∧
     0 ≤ srcY img.height bb x y ∧ srcY img.height bb x y ≤ (img.height : ℝ) - 1) ∧
    (∀ i : ℕ, i < img.width →
      reflectIdx img.width ((img.width : ℤ) + (i : ℤ)) = img.width - 1 - i ∧
      reflectIdx img.width (-(1 + (i : ℤ))) = i) := by
  have hw1 : (1 : ℝ) ≤ (img.width : ℝ) := by exact_mod_cast hw
  have hh1 : (1 : ℝ) ≤ (img.height : ℝ) := by exact_mod_cast hh
  have hwb := clampCoord_bounds ((img.width : ℝ) - 1) (srcXRaw bb x y) (by linarith)
  have hhb := clampCoord_bounds ((img.height : ℝ) - 1) (srcYRaw bb x y) (by linarith)
  refine ⟨⟨hwb.1, hwb.2, hhb.1, hhb.2⟩, ?_⟩
  intro i hi
  constructor
  · unfold reflectIdx
    have hmod : ((img.width : ℤ) + (i : ℤ)) % (2 * (img.width : ℤ))
        = (img.width : ℤ) + (i : ℤ) :=
      Int.emod_eq_of_lt (by omega) (by omega)
    rw [hmod, if_neg (by omega)]
    omega
  · unfold reflectIdx
    have h1 : (-(1 + (i : ℤ)))
        = (2 * (img.width : ℤ) - (1 + (i : ℤ))) + 2 * (img.width : ℤ) * (-1) := by
      ring
    have hmod : (-(1 + (i : ℤ))) % (2 * (img.width : ℤ))
        = 2 * (img.width : ℤ) - (1 + (i : ℤ)) := by
      rw [h1, Int.add_mul_emod_self_left]
      exact Int.emod_eq_of_lt (by omega) (by omega)
    rw [hmod, if_neg (by omega)]
    omega

/-- C8 witness: concrete bounds for the source coordinates and reflection
of the out-of-range tap indices on the concrete image. -/
theorem src_coords_clamped_reflect_sampling_witness :
    1 ≤ cimg.width ∧ 1 ≤ cimg.height ∧
    ((0 ≤ srcX cimg.width cbb 0 0 ∧ srcX cimg.width cbb 0 0 ≤ (cimg.width : ℝ) - 1 ∧
      0 ≤ srcY cimg.height cbb 0 0 ∧ srcY cimg.height cbb 0 0 ≤ (cimg.height : ℝ) - 1) ∧
     (∀ i : ℕ, i < cimg.width →
       reflectIdx cimg.width ((cimg.width : ℤ) + (i : ℤ)) = cimg.width - 1 - i ∧
       reflectIdx cimg.width (-(1 + (i : ℤ))) = i)) :=
  ⟨by decide, by decide,
   src_coords_clamped_reflect_sampling cimg cbb 0 0 (by decide) (by decide)⟩

theorem exists_attain_min (p : Plane) (c0 : ℕ × ℕ) (rest : List (ℕ × ℕ))
    (hl : thresholdCoords p = c0 :: rest) (f : ℕ × ℕ → ℕ) :
    ∃ q, q ∈ thresholdCoords p ∧
      f q = rest.foldl (fun a c => min a (f c)) (f c0) := by
  rcases foldl_min_attained f rest (f c0) with ha | ⟨c', hc', ha⟩
  · exact ⟨c0, by rw [hl]; exact List.mem_cons_self _ _, ha.symm⟩
  · exact ⟨c', by rw [hl]; exact List.mem_cons_of_mem _ hc', ha.symm⟩

theorem exists_attain_max (p : Plane) (c0 : ℕ × ℕ) (rest : List (ℕ × ℕ))
    (hl : thresholdCoords p = c0 :: rest) (f : ℕ × ℕ → ℕ) :
    ∃ q, q ∈ thresholdCoords p ∧
      f q = rest.foldl (fun a c => max a (f c)) (f c0) := by
  rcases foldl_max_attained f rest (f c0) with ha | ⟨c', hc', ha⟩
  · exact ⟨c0, by rw [hl]; exact List.mem_cons_self _ _, ha.symm⟩
  · exact ⟨c', by rw [hl]; exact List.mem_cons_of_mem _ hc', ha.symm⟩

/-- C5: with no explicit box, automatic detection returns nothing (and the
operation aborts) exactly when no pixel of the single-channel reference
meets the threshold 10; otherwise the detected box is the axis-aligned
bound (min_x, min_y, max_x, max_y) of the coordinates of all pixels
meeting the threshold, each bound being attained. -/
theorem auto_bbox_detection_correct (p : Plane) :
    (detectBBox p = none ↔ ∀ y x, y < p.height → x < p.width → p.px y x < 10) ∧
    (∀ mnx mny mxx mxy, detectBBox p = some (mnx, mny, mxx, mxy) →
      ((∀ y x, y < p.height → x < p.width → 10 ≤ p.px y x →
          mnx ≤ x ∧ x ≤ mxx ∧ mny ≤ y ∧ y ≤ mxy) ∧
       (∃ y x, (y, x) ∈ thresholdCoords p ∧ x = mnx) ∧
       (∃ y x, (y, x) ∈ thresholdCoords p ∧ y = mny) ∧
       (∃ y x, (y, x) ∈ thresholdCoords p ∧ x = mxx) ∧
       (∃ y x, (y, x) ∈ thresholdCoords p ∧ y = mxy))) := by
  constructor
  · constructor
    · intro h y x hy hx
      by_contra hge
      push_neg at hge
      have hmem : (y, x) ∈ thresholdCoords p :=
        (mem_thresholdCoords p y x).mpr ⟨hy, hx, hge⟩
      unfold detectBBox at h
      cases hl : thresholdCoords p with
      | nil => rw [hl] at hmem; cases hmem
      | cons c0 rest => rw [hl] at h; simp at h
    · intro hall
      unfold detectBBox
      cases hl : thresholdCoords p with
      | nil => rfl
      | cons c0 rest =>
        exfalso
        have hmem : (c0.1, c0.2) ∈ thresholdCoords p := by
          rw [hl, Prod.mk.eta]
          exact List.mem_cons_self _ _
        obtain ⟨hy, hx, hge⟩ := (mem_thresholdCoords p c0.1 c0.2).mp hmem
        exact absurd hge (not_le.mpr (hall _ _ hy hx))
  · intro mnx mny mxx mxy h
    unfold detectBBox at h
    cases hl : thresholdCoords p with
    | nil => rw [hl] at h; simp at h
    | cons c0 rest =>
      rw [hl] at h
      simp only [Option.some.injEq, Prod.mk.injEq] at h
      obtain ⟨h1, h2, h3, h4⟩ := h
      refine ⟨?_, ?_, ?_, ?_, ?_⟩
      · intro y x hy hx hge
        have hmem : (y, x) ∈ thresholdCoords p :=
          (mem_thresholdCoords p y x).mpr ⟨hy, hx, hge⟩
        rw [hl] at hmem
        rcases List.mem_cons.mp hmem with hc | hc
        · have hx2 : x = c0.2 := by rw [← hc]
          have hy2 : y = c0.1 := by rw [← hc]
          refine ⟨?_, ?_, ?_, ?_⟩
          · rw [← h1, hx2]; exact foldl_min_le_init _ rest _
          · rw [← h3, hx2]; exact foldl_max_init_le _ rest _
          · rw [← h2, hy2]; exact foldl_min_le_init _ rest _
          · rw [← h4, hy2]; exact foldl_max_init_le _ rest _
        · refine ⟨?_, ?_, ?_, ?_⟩
          · rw [← h1]; exact foldl_min_le_mem (fun c => c.2) rest _ _ hc
          · rw [← h3]; exact foldl_max_mem_le (fun c => c.2) rest _ _ hc
          · rw [← h2]; exact foldl_min_le_mem (fun c => c.1) rest _ _ hc
          · rw [← h4]; exact foldl_max_mem_le (fun c => c.1) rest _ _ hc
      · obtain ⟨q, hq, hfq⟩ := exists_attain_min p c0 rest hl fun c => c.2
        exact ⟨q.1, q.2, by rw [Prod.mk.eta, ← hl]; exact hq, by rw [← h1, ← hfq]⟩
      · obtain ⟨q, hq, hfq⟩ := exists_attain_min p c0 rest hl fun c => c.1
        exact ⟨q.1, q.2, by rw [Prod.mk.eta, ← hl]; exact hq, by rw [← h2, ← hfq]⟩
      · obtain ⟨q, hq, hfq⟩ := exists_attain_max p c0 rest hl fun c => c.2
        exact ⟨q.1, q.2, by rw [Prod.mk.eta, ← hl]; exact hq, by rw [← h3, ← hfq]⟩
      · obtain ⟨q, hq, hfq⟩ := exists_attain_max p c0 rest hl fun c => c.1
        exact ⟨q.1, q.2, by rw [Prod.mk.eta, ← hl]; exact hq, by rw [← h4, ← hfq]⟩

/-- C5 witness: on the concrete mask plane the detected box is the
axis-aligned bound of the two above-threshold pixels. -/
theorem auto_bbox_detection_correct_witness :
    detectBBox wplane = some (1, 1, 2, 2) ∧
    ((∀ y x, y < wplane.height → x < wplane.width → 10 ≤ wplane.px y x →
        1 ≤ x ∧ x ≤ 2 ∧ 1 ≤ y ∧ y ≤ 2) ∧
     (∃ y x, (y, x) ∈ thresholdCoords wplane ∧ x = 1) ∧
     (∃ y x, (y, x) ∈ thresholdCoords wplane ∧ y = 1) ∧
     (∃ y x, (y, x) ∈ thresholdCoords wplane ∧ x = 2) ∧
     (∃ y x, (y, x) ∈ thresholdCoords wplane ∧ y = 2)) :=
  ⟨by decide, (auto_bbox_detection_correct wplane).2 1 1 2 2 (by decide)⟩


/-- C1 (amended): apply_bulge_effect takes no strength parameter; it
coincides everywhere with the spec's strength-parameterized warp at
strength 1 (a hidden constant), while the spec warp at strength 0 is the
identity on every pixel of the raster for boxes of positive extent. -/
theorem bulge_matches_spec_full_strength (img : Image) (bb : BBox) (c y x : ℕ) :
    specWarp 1 img bb c y x = apply_bulge_effect true img bb c y x ∧
    (bb.min_x < bb.max_x → bb.min_y < bb.max_y → x < img.width → y < img.height →
      specWarp 0 img bb c y x = (img.px c y x : ℝ)) := by
  constructor
  · have hb : apply_bulge_effect true img bb c y x = bulgePixel img bb c y x := by
      simp [apply_bulge_effect]
    rw [hb]
    unfold specWarp bulgePixel srcX srcY
    rw [specSrcXRaw_one, specSrcYRaw_one]
  · intro hbx hby hx hy
    unfold specWarp
    rw [specSrcXRaw_zero bb x y (ne_of_gt (radiusX_pos bb hbx)),
        specSrcYRaw_zero bb x y (ne_of_gt (radiusY_pos bb hby))]
    exact bilinear_clamped_nat (channel img c) x y hx hy

/-- C1 witness: on the concrete image and box, the spec warp at strength 0
leaves the pixel (row 2, column 3) unchanged. -/
theorem bulge_matches_spec_full_strength_witness :
    cbb.min_x < cbb.max_x ∧ cbb.min_y < cbb.max_y ∧
    (3 : ℕ) < cimg.width ∧ (2 : ℕ) < cimg.height ∧
    specWarp 0 cimg cbb 0 2 3 = (cimg.px 0 2 3 : ℝ) :=
  ⟨by decide, by decide, by decide, by decide,
   (bulge_matches_spec_full_strength cimg cbb 0 2 3).2 (by decide) (by decide)
     (by decide) (by decide)⟩

/-- C1 counterexample: the code warp is not an identity transform under any
available configuration: there is no strength input, the full spherical
factor is always applied, and on the concrete image the pixel at
(row 2, column 3) changes from 255 to 170. -/
theorem bulge_warp_not_identity :
    apply_bulge_effect true cimg cbb 0 2 3 ≠ (cimg.px 0 2 3 : ℝ) := by
  have hcx : centerX cbb = 2 := by norm_num [centerX, cbb]
  have hcy : centerY cbb = 2 := by norm_num [centerY, cbb]
  have hrx : radiusX cbb = 2 := by norm_num [radiusX, cbb]
  have hry : radiusY cbb = 2 := by norm_num [radiusY, cbb]
  have hdx : normDx cbb 3 = 1 / 2 := by
    rw [normDx, hcx, hrx]
    norm_num
  have hdy : normDy cbb 2 = 0 := by
    rw [normDy, hcy, hry]
    norm_num
  have hds : distSq cbb 3 2 = 1 / 4 := by
    rw [distSq, hdx, hdy]
    norm_num
  have hsq : Real.sqrt (1 / 4 : ℝ) = 1 / 2 := by
    rw [show (1 / 4 : ℝ) = (1 / 2) ^ 2 by norm_num]
    exact Real.sqrt_sq (by norm_num)
  have hasin : Real.arcsin (1 / 2) = Real.pi / 6 := by
    rw [show (1 / 2 : ℝ) = Real.sin (Real.pi / 6) from Real.sin_pi_div_six.symm]
    exact Real.arcsin_sin (by linarith [Real.pi_pos]) (by linarith [Real.pi_pos])
  have hfac : sphericalFactor (1 / 2) = 2 / 3 := by
    unfold sphericalFactor
    rw [if_pos (by norm_num : (0 : ℝ) < 1 / 2), hasin,
        div_eq_iff (by positivity : (1 / 2 : ℝ) * (Real.pi / 2) ≠ 0)]
    ring
  have hw5 : cimg.width = 5 := rfl
  have hh5 : cimg.height = 5 := rfl
  have hsx : srcX cimg.width cbb 3 2 = 8 / 3 := by
    unfold srcX srcXRaw
    rw [hds, if_pos (by norm_num : (1 / 4 : ℝ) ≤ 1), hsq, hfac, hcx, hdx, hrx, hw5]
    rw [clampCoord_of_mem _ _ (by norm_num) (by norm_num)]
    norm_num
  have hsy : srcY cimg.height cbb 3 2 = 2 := by
    unfold srcY srcYRaw
    rw [hds, if_pos (by norm_num : (1 / 4 : ℝ) ≤ 1), hsq, hfac, hcy, hdy, hry, hh5]
    rw [show (2 : ℝ) + 0 * (2 / 3) * 2 = 2 by ring]
    rw [clampCoord_of_mem _ _ (by norm_num) (by norm_num)]
  have hfl : ⌊(8 / 3 : ℝ)⌋ = 2 := by
    rw [Int.floor_eq_iff]
    constructor <;> norm_num
  have hfl2 : ⌊(2 : ℝ)⌋ = 2 := by norm_num
  have hcw : (channel cimg 0).width = 5 := rfl
  have hch : (channel cimg 0).height = 5 := rfl
  have hr2 : reflectIdx 5 (2 : ℤ) = 2 := by decide
  have hr3 : reflectIdx 5 ((2 : ℤ) + 1) = 3 := by decide
  have hp22 : (channel cimg 0).px 2 2 = 0 := rfl
  have hp23 : (channel cimg 0).px 2 3 = 255 := rfl
  have hp32 : (channel cimg 0).px 3 2 = 0 := rfl
  have hp33 : (channel cimg 0).px 3 3 = 0 := rfl
  have hb : bilinear (channel cimg 0) (8 / 3) 2 = 170 := by
    unfold bilinear
    rw [hfl, hfl2, hcw, hch, hr2, hr3, hp22, hp23, hp32, hp33]
    norm_num
  have hval : apply_bulge_effect true cimg cbb 0 2 3 = 170 := by
    have hbe : apply_bulge_effect true cimg cbb 0 2 3 = bulgePixel cimg cbb 0 2 3 := by
      simp [apply_bulge_effect]
    rw [hbe]
    unfold bulgePixel
    rw [hsx, hsy, hb]
  rw [hval, show (cimg.px 0 2 3 : ℝ) = 255 from by norm_num [cimg]]
  norm_num

